import Mathlib

/-!
Verification of the core of the jobctl workflow system against its source:
the JSON-line history store (`internal/persistence/jsondb/jsondb.go`), the
minute-tick scheduler (`scheduler` package), and the DAG loader
(`internal/dag/loader.go`).  Filesystem state is embedded as association
lists from structured paths to file contents; every operation of the source
is translated as a pure state transformer.
-/

/-! ## Association-list helpers (model of directory + file maps) -/

/-- Look up the value stored at a key in an association list
(first match wins, mirroring a filesystem where paths are unique keys). -/
def alookup {κ α : Type} [DecidableEq κ] : List (κ × α) → κ → Option α
  | [], _ => none
  | (k, v) :: t, k0 => if k0 = k then some v else alookup t k0

/-- Update the entry at a key in place via `f` applied to the current value,
appending a fresh entry `(k, f none)` if the key is absent.  This models
open-or-create followed by a write on one file. -/
def aupdate {κ α : Type} [DecidableEq κ] : List (κ × α) → κ → (Option α → α) → List (κ × α)
  | [], k0, f => [(k0, f none)]
  | (k, v) :: t, k0, f => if k0 = k then (k, f (some v)) :: t else (k, v) :: aupdate t k0 f

/-- Remove every entry with the given key (model of `os.Remove`). -/
def aremove {κ α : Type} [DecidableEq κ] : List (κ × α) → κ → List (κ × α)
  | [], _ => []
  | (k, v) :: t, k0 => if k0 = k then aremove t k0 else (k, v) :: aremove t k0

theorem alookup_aupdate_self {κ α : Type} [DecidableEq κ]
    (l : List (κ × α)) (k : κ) (f : Option α → α) :
    alookup (aupdate l k f) k = some (f (alookup l k)) := by
  induction l with
  | nil => simp [alookup, aupdate]
  | cons h t ih =>
    obtain ⟨k1, v⟩ := h
    by_cases hk : k = k1
    · simp [alookup, aupdate, hk]
    · simp [alookup, aupdate, hk, ih]

theorem alookup_aupdate_other {κ α : Type} [DecidableEq κ]
    (l : List (κ × α)) (k k0 : κ) (f : Option α → α) (hne : k0 ≠ k) :
    alookup (aupdate l k f) k0 = alookup l k0 := by
  induction l with
  | nil => simp [alookup, aupdate, hne]
  | cons h t ih =>
    obtain ⟨k1, v⟩ := h
    by_cases hk : k = k1
    · subst hk
      simp [alookup, aupdate, hne]
    · by_cases hk0 : k0 = k1
      · simp [alookup, aupdate, hk, hk0]
      · simp [alookup, aupdate, hk, hk0, ih]

theorem alookup_aremove_self {κ α : Type} [DecidableEq κ]
    (l : List (κ × α)) (k : κ) :
    alookup (aremove l k) k = none := by
  induction l with
  | nil => simp [alookup, aremove]
  | cons h t ih =>
    obtain ⟨k1, v⟩ := h
    by_cases hk : k = k1
    · simpa [aremove, hk] using ih
    · simp [alookup, aremove, hk, ih]

theorem alookup_aremove_other {κ α : Type} [DecidableEq κ]
    (l : List (κ × α)) (k k0 : κ) (hne : k0 ≠ k) :
    alookup (aremove l k) k0 = alookup l k0 := by
  induction l with
  | nil => simp [alookup, aremove]
  | cons h t ih =>
    obtain ⟨k1, v⟩ := h
    by_cases hk : k = k1
    · subst hk
      simp [alookup, aremove, hne, ih]
    · by_cases hk0 : k0 = k1
      · simp [alookup, aremove, hk, hk0]
      · simp [alookup, aremove, hk, hk0, ih]

theorem aupdate_aupdate {κ α : Type} [DecidableEq κ]
    (l : List (κ × α)) (k : κ) (f g : Option α → α) :
    aupdate (aupdate l k f) k g = aupdate l k (fun o => g (some (f o))) := by
  induction l with
  | nil => simp [aupdate]
  | cons h t ih =>
    obtain ⟨k1, v⟩ := h
    by_cases hk : k = k1
    · simp [aupdate, hk]
    · simp [aupdate, hk, ih]

theorem aupdate_same {κ α : Type} [DecidableEq κ]
    (l : List (κ × α)) (k : κ) (v : α) (h : alookup l k = some v) :
    aupdate l k (fun _ => v) = l := by
  induction l with
  | nil => simp [alookup] at h
  | cons hd t ih =>
    obtain ⟨k1, v1⟩ := hd
    by_cases hk : k = k1
    · subst hk
      simp [alookup] at h
      simp [aupdate, h]
    · simp [alookup, hk] at h
      simp [aupdate, hk, ih h]

/-! ## Status records and JSON-line files

`model.Status` and its JSON codec (`model.StatusFromJSON` / `ToJSON`) are not
under src (only their callers in `jsondb.go` are).  Modelled from the spec:
a status snapshot carries the workflow name, the full request ID, the
overall status code, timestamps and a log pointer; it serializes to a single
nonempty JSON line, and deserializing that line yields the same status. -/

/-- Overall status code of one execution
(spec section 3: None, Running, Error, Cancelled, Success, Skipped). -/
inductive StatusCode where
  | codeNone | running | error | cancelled | success | skipped
  deriving DecidableEq, Repr

/-- Modelled from the spec: the fields of `model.Status` that the claims
touch (workflow name, request ID, status code, timestamps, log pointer). -/
structure Status where
  name : String
  requestID : String
  status : StatusCode
  startedAt : String
  finishedAt : String
  log : String
  deriving DecidableEq, Repr

/-- One line of a status file.  Modelled from the spec: a line is either the
serialization of a status (a nonempty JSON document, which decodes back to
that status) or undecodable bytes (garbage, possibly empty). -/
inductive Line where
  | valid (s : Status)
  | garbage (g : String)
  deriving DecidableEq, Repr

/-- Modelled from the spec: `model.StatusFromJSON` on a line — succeeds
exactly on serialized statuses and returns the encoded status. -/
def decodeLine : Line → Option Status
  | .valid s => some s
  | .garbage _ => none

/-- Modelled from the spec: the length test `len(line) > 0` of
`ParseStatusFile`; a serialized status is a nonempty JSON document. -/
def lineNonempty : Line → Bool
  | .valid _ => true
  | .garbage g => !g.isEmpty

/-- Errors surfaced by the store (section 7 of the spec plus `io.EOF`,
which `ParseStatusFile` returns for a file with zero decodable lines and
which the spec names *Empty*). -/
inductive JErr where
  | eof
  | openFail
  | writerOpen
  | notOpen
  | alreadyCompacted
  | conflict
  | requestIDNotFound
  | noStatusDataToday
  | noStatusData
  | noStatusFilesFound
  deriving DecidableEq, Repr

/-- The read loop of `ParseStatusFile` (jsondb.go lines 616-637): walk the
lines keeping the last successfully decoded status in `ret`; at end of file
return `ret` if any line decoded and `io.EOF` otherwise. -/
def parseLines : Option Status → List Line → Except JErr Status
  | none, [] => .error .eof
  | some r, [] => .ok r
  | ret, l :: ls =>
      parseLines
        (if lineNonempty l then
          match decodeLine l with
          | some m => some m
          | none => ret
        else ret) ls

/-- Function `ParseStatusFile` over a file map: `os.Open` fails when the path is
absent; otherwise run the line loop from offset 0. -/
def parseFile {π : Type} [DecidableEq π] (fs : List (π × List Line)) (p : π) :
    Except JErr Status :=
  match alookup fs p with
  | none => .error .openFail
  | some lines => parseLines none lines

theorem decodeLine_valid (s : Status) : decodeLine (.valid s) = some s := rfl

/-- A decoded line is nonempty and decodes to itself; hence the loop state
after a line is the decoded value when one exists, else unchanged. -/
theorem parseLines_step (ret : Option Status) (l : Line) (ls : List Line) :
    parseLines ret (l :: ls) =
      parseLines (match decodeLine l with | some m => some m | none => ret) ls := by
  cases l with
  | valid s => simp [parseLines, lineNonempty, decodeLine]
  | garbage g =>
    by_cases hg : g.isEmpty
    · simp [parseLines, lineNonempty, hg, decodeLine]
    · simp [parseLines, lineNonempty, hg, decodeLine]

/-- Characterization of the parse loop: its result is the last decodable
line when one exists, else the incoming accumulator, else `io.EOF`. -/
theorem parseLines_eq (ls : List Line) : ∀ ret : Option Status,
    parseLines ret ls =
      match (ls.filterMap decodeLine).getLast? with
      | some s => .ok s
      | none =>
        match ret with
        | some r => .ok r
        | none => .error .eof := by
  induction ls with
  | nil => intro ret; cases ret <;> simp [parseLines]
  | cons l t ih =>
    intro ret
    rw [parseLines_step]
    cases hl : decodeLine l with
    | none => simp [ih, hl, List.filterMap_cons, hl]
    | some m =>
      rw [ih]
      simp only [List.filterMap_cons, hl]
      cases hx : t.filterMap decodeLine with
      | nil => simp
      | cons a b =>
        rw [List.getLast?_cons_cons]
        cases h2 : (a :: b).getLast? with
        | none => exact absurd (List.getLast?_eq_none_iff.mp h2) (by simp)
        | some s => rfl

/-! ## Filenames, normalization, glob matching -/

/-- Does `needle` occur at the start of `hay`?  (Character-list model of a
string prefix test, used to embed glob patterns.) -/
def startsL : List Char → List Char → Bool
  | [], _ => true
  | _ :: _, [] => false
  | a :: as, b :: bs => a == b && startsL as bs

/-- Does `needle` occur at the end of `hay`? -/
def endsL (needle hay : List Char) : Bool :=
  startsL needle.reverse hay.reverse

/-- Does `needle` occur anywhere inside `hay`? -/
def containsSub : List Char → List Char → Bool
  | needle, [] => needle.isEmpty
  | needle, c :: t => startsL needle (c :: t) || containsSub needle t

/-- Match of a name against the glob `pre*mid*suf`: the name decomposes as
`pre ++ A ++ mid ++ B ++ suf`.  All glob patterns of jsondb.go have this
shape (`<id>*.dat`, `<id>*<date>*.dat`, `*<reqID>*.dat`, `<base>*.dat`). -/
def globMatch (pre mid suf nm : List Char) : Bool :=
  startsL pre nm &&
    (let rest := nm.drop pre.length
     endsL suf rest && containsSub mid (rest.take (rest.length - suf.length)))

/-- Characters rejected by `util.ValidFilename`
(the character class of its reserved-character regular expression). -/
def reservedChar (c : Char) : Bool :=
  c == '<' || c == '>' || c == ':' || c == '"' || c == '/' || c == '\\' ||
  c == '|' || c == '?' || c == '*' || decide (c.toNat ≤ 31)

/-- ASCII lowering, character by character (the behaviour of
`strings.ToLower` on the ASCII names involved). -/
def lowerStr (s : String) : String :=
  String.mk (s.toList.map Char.toLower)

/-- Reserved Windows device names matched case-insensitively by
`util.ValidFilename`. -/
def windowsReserved (s : String) : Bool :=
  ["con", "prn", "aux", "nul",
   "com0", "com1", "com2", "com3", "com4", "com5", "com6", "com7", "com8", "com9",
   "lpt0", "lpt1", "lpt2", "lpt3", "lpt4", "lpt5", "lpt6", "lpt7", "lpt8",
   "lpt9"].contains (lowerStr s)

/-- Function `util.ValidFilename` with replacement string `_` (the value used by the
one-argument form called from jsondb.go line 753): reserved characters
become `_`, a whole-string Windows reserved name becomes `_`, spaces become
`_`. -/
def validFilename (s : String) : String :=
  let s1 := String.mk (s.toList.map (fun c => if reservedChar c then '_' else c))
  let s2 := if windowsReserved s1 then "_" else s1
  String.mk (s2.toList.map (fun c => if c == ' ' then '_' else c))

/-- The final path element (`filepath.Base`): everything after the last
slash. -/
def baseOf (s : String) : String :=
  String.mk ((s.toList.reverse.takeWhile (fun c => c != '/')).reverse)

/-- Strip the `filepath.Ext` extension: drop the part of the name from its
last dot on; a name without a dot is unchanged (`Ext` is empty there). -/
def stemOf (s : String) : String :=
  let r := s.toList.reverse
  if r.contains '.' then String.mk (((r.dropWhile (fun c => c != '.')).drop 1).reverse)
  else s

/-- Function `normalizedID` (jsondb.go lines 752-756): a filesystem-safe key derived
from a DAG ID. -/
def normalizedID (dagID : String) : String :=
  validFilename (stemOf (baseOf dagID))

/-- Function `util.TruncString`: truncate to at most `n` characters. -/
def truncString (s : String) (n : Nat) : String :=
  if s.length > n then String.mk (s.toList.take n) else s

/-- A timestamp as rendered inside crafted filenames:
`<YYYY><MM><DD>.<HH:MM:SS.mmm>`, kept split into the date components that
the index-file regular expression extracts and the time-of-day tail. -/
structure Timestamp where
  year : String
  month : String
  day : String
  tod : String
  deriving DecidableEq, Repr

/-- The base filename crafted by `craftStatusFile`
(`<normalizedID>.<timestamp>.<truncated reqID>`, without the `.dat`
extension), kept structured. -/
structure FileName where
  dagID : String
  ts : Timestamp
  reqShort : String
  deriving DecidableEq, Repr

/-- The rendered timestamp part of a filename. -/
def renderTs (t : Timestamp) : String :=
  t.year ++ t.month ++ t.day ++ "." ++ t.tod

/-- The rendered filename without its `.dat` extension. -/
def renderBase (fn : FileName) : String :=
  fn.dagID ++ "." ++ renderTs fn.ts ++ "." ++ fn.reqShort

/-- The rendered index filename (always plain `.dat`). -/
def renderName (fn : FileName) : String :=
  renderBase fn ++ ".dat"

/-- A status-file path under `baseDir/status/<YYYY>/<MM>/<DD>/`: the date
directories, the crafted base name, and whether this is the compacted
variant (`_c.dat`) or the plain one (`.dat`). -/
structure StatusPath where
  year : String
  month : String
  day : String
  fname : FileName
  compacted : Bool
  deriving DecidableEq, Repr

/-- The rendered filename of a status file. -/
def renderStatusName (p : StatusPath) : String :=
  renderBase p.fname ++ (if p.compacted then "_c.dat" else ".dat")

/-- Lexicographic order on character lists (byte order of Go string
comparison, restricted to the ASCII names crafted here). -/
def lexLe : List Char → List Char → Bool
  | [], _ => true
  | _ :: _, [] => false
  | a :: as, b :: bs => if a == b then lexLe as bs else decide (a < b)

/-- Insert into a list sorted descending by the rendered name. -/
def insertDesc {α : Type} (render : α → String) (x : α) : List α → List α
  | [] => [x]
  | y :: ys =>
      if lexLe (render y).toList (render x).toList then x :: y :: ys
      else y :: insertDesc render x ys

/-- Sort descending by rendered name
(`sort.Sort(sort.Reverse(sort.StringSlice(...)))`). -/
def sortDescBy {α : Type} (render : α → String) : List α → List α
  | [] => []
  | x :: xs => insertDesc render x (sortDescBy render xs)

/-- Sort ascending by rendered name (the order of `filepath.Glob` results). -/
def sortAscBy {α : Type} (render : α → String) (l : List α) : List α :=
  (sortDescBy render l).reverse

/-- Function `getLatestFiles` (jsondb.go lines 641-647): nil on an empty list, else
the first `n` names in descending order. -/
def getLatestFiles {α : Type} (render : α → String) (files : List α) (n : Nat) : List α :=
  if files.isEmpty then [] else (sortDescBy render files).take n

/-! ## The JSONDB store

State: the index tree (`baseDir/index/<normalizedID>/` as an association
list from directory key to the structured filenames it holds — index files
are empty, only their names matter), the status tree (association list from
status path to JSON-line contents), the current writer, and the
`latestStatusToday` flag.  The writer-side file handling (`writer.go` is not
under src) is modelled from the spec: `open` is `util.OpenOrCreateFile`
(keep an existing file, else create it empty), `write` appends one
serialized line, and a write with no open writer fails with *NotOpen*. -/

structure DB where
  index : List (String × List FileName)
  status : List (StatusPath × List Line)
  writer : Option StatusPath
  latestStatusToday : Bool
  deriving DecidableEq, Repr

/-- The filename crafted by `craftStatusFile` for `Open(dagID, t, reqID)`. -/
def craftFileName (dagID reqID : String) (t : Timestamp) : FileName :=
  ⟨normalizedID dagID, t, truncString reqID 8⟩

/-- The status-file path used by `Open` (plain, non-compacted variant under
the date directories of `t`). -/
def craftStatusPath (dagID reqID : String) (t : Timestamp) : StatusPath :=
  ⟨t.year, t.month, t.day, craftFileName dagID reqID t, false⟩

/-- The compacted sibling of a crafted status path. -/
def craftCompactedPath (dagID reqID : String) (t : Timestamp) : StatusPath :=
  { craftStatusPath dagID reqID t with compacted := true }

/-- Method `JSONDB.Open` (jsondb.go lines 93-135): fail with *WriterOpen* when a
writer exists; create the index file if absent; open-or-create the status
file; install the writer. -/
def DB.Open (db : DB) (dagID : String) (t : Timestamp) (reqID : String) :
    Except JErr DB :=
  if db.writer.isSome then .error .writerOpen
  else
    let fn := craftFileName dagID reqID t
    let nid := normalizedID dagID
    let sp := craftStatusPath dagID reqID t
    .ok { db with
          index := aupdate db.index nid
            (fun o => let es := o.getD []; if fn ∈ es then es else es ++ [fn]),
          status := aupdate db.status sp (fun o => o.getD []),
          writer := some sp }

/-- The append of one serialized status by the writer, dispatched on the
(possibly nil) writer.  Modelled from the spec: `writer.go` is not under
src; per spec section 4.3, `Write` fails with *NotOpen* when no writer is
open. -/
def writerWrite (w : Option StatusPath) (tree : List (StatusPath × List Line))
    (st : Status) : Except JErr (List (StatusPath × List Line)) :=
  match w with
  | none => .error .notOpen
  | some p => .ok (aupdate tree p (fun o => o.getD [] ++ [Line.valid st]))

/-- Method `JSONDB.Write` (jsondb.go lines 138-143): delegate to the writer. -/
def DB.Write (db : DB) (st : Status) : Except JErr DB :=
  (writerWrite db.writer db.status st).map (fun t => { db with status := t })

/-- Method `JSONDB.Compact` (jsondb.go lines 452-482): parse the last status; on
`io.EOF` do nothing; refuse an already-compacted name; open-or-create the
compacted sibling, append the single status line, remove the original. -/
def Compact (tree : List (StatusPath × List Line)) (p : StatusPath) :
    Except JErr (List (StatusPath × List Line)) :=
  match parseFile tree p with
  | .error .eof => .ok tree
  | .error e => .error e
  | .ok st =>
      if p.compacted then .error .alreadyCompacted
      else
        let cp : StatusPath := { p with compacted := true }
        let t1 := aupdate tree cp (fun o => o.getD [])
        let t2 := aupdate t1 cp (fun o => o.getD [] ++ [Line.valid st])
        .ok (aremove t2 p)

/-- Method `JSONDB.Close` (jsondb.go lines 146-175): no-op without a writer; else
compact (a compaction error is only logged), close, clear the writer; always
returns nil once past the writer check. -/
def DB.Close (db : DB) : Except JErr DB :=
  match db.writer with
  | none => .ok db
  | some p =>
      let tree := match Compact db.status p with
        | .ok t => t
        | .error _ => db.status
      .ok { db with status := tree, writer := none }

/-- A sequence of `Write` calls, stopping at the first error. -/
def writeAll (db : DB) : List Status → Except JErr DB
  | [] => .ok db
  | w :: ws =>
    match DB.Write db w with
    | .ok db2 => writeAll db2 ws
    | .error e => .error e

/-! ## Store queries -/

/-- The status-file candidates matched by the pattern
`status/<y>/<m>/<d>/<base>*.dat` that `indexFileToStatusFilePattern`
(jsondb.go lines 709-721) builds from an index file: the date directories
come from the components the index-file regular expression extracts from the
crafted filename, the base name is the index filename with its `.dat`
extension trimmed.  `filepath.Glob` returns matches in sorted order. -/
def globStatus (tree : List (StatusPath × List Line)) (fn : FileName) :
    List StatusPath :=
  sortAscBy renderStatusName
    ((tree.map Prod.fst).filter (fun p =>
      p.year == fn.ts.year && p.month == fn.ts.month && p.day == fn.ts.day &&
      globMatch (renderBase fn).toList [] ".dat".toList
        (renderStatusName p).toList))

/-- Method `indexFileToStatusFile` (jsondb.go lines 536-550): glob the status
pattern, keep the newest match, fail when none. -/
def indexFileToStatusFile (tree : List (StatusPath × List Line))
    (fn : FileName) : Except JErr StatusPath :=
  match getLatestFiles renderStatusName (globStatus tree fn) 1 with
  | [] => .error .noStatusFilesFound
  | p :: _ => .ok p

/-- The index-directory glob of `latestToday` (jsondb.go lines 512-521):
a date-constrained pattern `<id>*<YYYYMMDD>*.dat` when `latestStatusToday`
is set, the unconstrained `<id>*.dat` otherwise. -/
def latestTodayMatches (db : DB) (dagID : String) (day : Timestamp)
    (latestStatusToday : Bool) : List FileName :=
  let nid := normalizedID dagID
  let entries := (alookup db.index nid).getD []
  let dateStr := day.year ++ day.month ++ day.day
  entries.filter (fun fn =>
    if latestStatusToday then
      globMatch nid.toList dateStr.toList ".dat".toList (renderName fn).toList
    else
      globMatch nid.toList [] ".dat".toList (renderName fn).toList)

/-- Method `latestToday` (jsondb.go lines 512-533): glob the index directory; zero
matches (or a glob error) give *NoStatusDataToday*; an empty newest-first
selection gives *NoStatusData*; else resolve the newest index entry to its
status file. -/
def latestToday (db : DB) (dagID : String) (day : Timestamp)
    (latestStatusToday : Bool) : Except JErr StatusPath :=
  let hits := latestTodayMatches db dagID day latestStatusToday
  if hits.isEmpty then .error .noStatusDataToday
  else
    match getLatestFiles renderName hits 1 with
    | [] => .error .noStatusData
    | fn :: _ => indexFileToStatusFile db.status fn

/-- Method `JSONDB.ReadStatusToday` (jsondb.go lines 337-346): resolve via
`latestToday` with the store flag, then load the file.  The file cache
(`filecache`, not under src) is modelled from the spec as a read-through to
the parser keyed on the current file. -/
def DB.ReadStatusToday (db : DB) (dagID : String) (day : Timestamp) :
    Except JErr Status :=
  match latestToday db dagID day db.latestStatusToday with
  | .error e => .error e
  | .ok p => parseFile db.status p

/-- The scan over one glob result in `FindByRequestID` (jsondb.go lines
378-387): parse each status file, skip unparseable ones, return the first
whose stored full request ID equals the argument exactly. -/
def scanStatus (tree : List (StatusPath × List Line)) (reqID : String) :
    List StatusPath → Option (StatusPath × Status)
  | [] => none
  | p :: ps =>
    match parseFile tree p with
    | .ok st => if st.requestID = reqID then some (p, st) else scanStatus tree reqID ps
    | .error _ => scanStatus tree reqID ps

/-- The outer loop of `FindByRequestID` over the matched index files in
descending name order (jsondb.go lines 363-390). -/
def findScan (tree : List (StatusPath × List Line)) (reqID : String) :
    List FileName → Except JErr (StatusPath × Status)
  | [] => .error .requestIDNotFound
  | fn :: rest =>
    match scanStatus tree reqID (globStatus tree fn) with
    | some hit => .ok hit
    | none => findScan tree reqID rest

/-- Method `JSONDB.FindByRequestID` (jsondb.go lines 349-391): *RequestIDNotFound*
on an empty request ID; glob the index directory for
`*<truncated reqID>*.dat`; walk matches newest first; the JSON content is
the source of truth for the full request ID. -/
def DB.FindByRequestID (db : DB) (dagID reqID : String) :
    Except JErr (StatusPath × Status) :=
  if reqID = "" then .error .requestIDNotFound
  else
    let nid := normalizedID dagID
    let safe := truncString reqID 8
    let entries := (alookup db.index nid).getD []
    let hits := entries.filter (fun fn =>
      globMatch [] safe.toList ".dat".toList (renderName fn).toList)
    findScan db.status reqID (sortDescBy renderName hits)

/-- Method `JSONDB.Rename` (jsondb.go lines 485-509): no-op on equal IDs or a
missing old index directory; *Conflict* when the new index directory exists;
otherwise rename the index directory only — the status tree is untouched. -/
def DB.Rename (db : DB) (oldID newID : String) : Except JErr DB :=
  if oldID = newID then .ok db
  else
    let oldD := normalizedID oldID
    let newD := normalizedID newID
    match alookup db.index oldD with
    | none => .ok db
    | some l =>
      match alookup db.index newD with
      | some _ => .error .conflict
      | none =>
        .ok { db with index := aupdate (aremove db.index oldD) newD (fun _ => l) }

/-! ## Scheduler

`Scheduler.run` (scheduler package, part_000 lines 72-90): read the entries,
stable-sort them by `Next` ascending (`sort.SliceStable` with
`Next.Before`), then walk the sorted slice dispatching each entry on a fresh
task until the first entry whose `Next` is after `now`.  Time instants are
embedded as integers (seconds); the dispatch trace is the list of entries
whose `Invoke` is launched, in launch order. -/

/-- A scheduler entry: its next-fire time and the job it invokes. -/
structure Entry where
  next : Int
  job : String
  deriving DecidableEq, Repr

/-- Insert an entry into an already-sorted list, before the first entry with
a `next` that is not smaller — the earlier-read entry wins ties, which is
exactly the stable behaviour of `sort.SliceStable` under the strict
comparator `entries[i].Next.Before(entries[j].Next)`. -/
def insertByNext (x : Entry) : List Entry → List Entry
  | [] => [x]
  | y :: ys => if x.next ≤ y.next then x :: y :: ys else y :: insertByNext x ys

/-- Stable sort by `Next` ascending.  A stable sort is characterized
uniquely by its two proved properties (sortedness and preservation of the
per-key subsequences), so this insertion sort embeds `sort.SliceStable`. -/
def sortByNext : List Entry → List Entry
  | [] => []
  | x :: xs => insertByNext x (sortByNext xs)

/-- The dispatch walk: `if t.After(now) break` else dispatch and continue. -/
def dispatchLoop (now : Int) : List Entry → List Entry
  | [] => []
  | e :: rest => if now < e.next then [] else e :: dispatchLoop now rest

/-- Method `Scheduler.run(now)` restricted to its dispatch trace. -/
def schedulerRun (now : Int) (entries : List Entry) : List Entry :=
  dispatchLoop now (sortByNext entries)

/-- The scheduler state visible to `Stop` (part_000 lines 96-104): the
`running` flag and whether the stop channel is non-nil. -/
structure SchedState where
  running : Bool
  stopChanExists : Bool
  deriving DecidableEq, Repr

/-- Method `Scheduler.Stop`: early return when not running; otherwise send one
value on the stop channel when it is non-nil and clear `running`.  The
second component counts the sends performed on the stop channel. -/
def SchedStop (s : SchedState) : SchedState × Nat :=
  if s.running then
    ({ s with running := false }, if s.stopChanExists then 1 else 0)
  else (s, 0)

/-! ## DAG loader

`DAG` itself is not under src (only `loader.go` is).  Modelled from the
spec: the fields of section 3 that the claims touch — display name,
description, mail routing, and location. -/

/-- Mail routing switches (`MailOn.Success`, `MailOn.Failure`). -/
structure MailOn where
  failure : Bool
  success : Bool
  deriving DecidableEq, Repr

/-- Modelled from the spec: the DAG fields the loader claims touch. -/
structure DAG where
  name : String
  description : String
  mailOn : MailOn
  location : String
  deriving DecidableEq, Repr

/-- The all-zero DAG value (`&DAG{}` before its `Name` is set). -/
def emptyDAG : DAG := ⟨"", "", ⟨false, false⟩, ""⟩

/-- The load options of `loadDAGWithOptions` (loader.go lines 42-51). -/
structure BuildDAGOptions where
  parameters : String
  headOnly : Bool
  noEval : Bool
  noSetenv : Bool
  deriving DecidableEq, Repr

/-- Classified loader errors relevant to base-config loading. -/
inductive LoadErr where
  | decodeFailed
  deriving DecidableEq, Repr

/-- What a configured base-config file on disk amounts to once read.
Modelled from the spec: the YAML decode and `DAGBuilder` are not under src;
a base file either decodes and builds to a DAG template or fails. -/
inductive BaseContent where
  | buildsTo (d : DAG)
  | badData
  deriving DecidableEq, Repr

/-- Method `Loader.loadBaseConfig` (loader.go lines 73-95): a missing base file
returns a nil DAG with a nil error (`return nil, nil`); an existing one is
decoded and built (with `headOnly` forced off and the default environment
injected — both internal to the modelled build). -/
def loadBaseConfig (fs : String → Option BaseContent) (file : String) :
    Except LoadErr (Option DAG) :=
  match fs file with
  | none => .ok none
  | some (.buildsTo d) => .ok (some d)
  | some .badData => .error .decodeFailed

/-- The file stem used for the fallback template name:
`strings.TrimSuffix(filepath.Base(file), filepath.Ext(file))`. -/
def fileStem (file : String) : String :=
  stemOf (baseOf file)

/-- Method `Loader.loadBaseConfigIfRequired` (loader.go lines 151-156): load the
base config when the mode is not HeadOnly and a base path is configured;
otherwise return an empty DAG carrying only the file stem as its name. -/
def ldBaseIfRequired (baseConfig : String) (fs : String → Option BaseContent)
    (file : String) (opts : BuildDAGOptions) : Except LoadErr (Option DAG) :=
  if !opts.headOnly && baseConfig != "" then loadBaseConfig fs baseConfig
  else .ok (some { emptyDAG with name := fileStem file })

/-- Zero test used by mergo for a `MailOn` destination value. -/
def isZeroMailOn (m : MailOn) : Bool :=
  !m.failure && !m.success

/-- The merge of the `MailOn` field under
`mergo.Merge(dst, src, WithOverride, WithTransformers(&mergeTranformer{}))`
(loader.go lines 158-178): mergo invokes the registered transformer only on
a non-empty destination, and the transformer of `mergeTranformer` assigns
the source value wholesale (`dst.Set(src)`); an empty destination falls
through to the default field-by-field override, where a boolean source
field is copied when it is non-zero. -/
def mergeMailOn (dst src : MailOn) : MailOn :=
  if isZeroMailOn dst then
    { failure := if src.failure then src.failure else dst.failure,
      success := if src.success then src.success else dst.success }
  else src

/-- Default mergo override on a string field: a non-empty source wins. -/
def mergeStr (dst src : String) : String :=
  if src == "" then dst else src

/-- Method `Loader.merge` (loader.go lines 174-178) on the modelled DAG fields:
field-by-field override with the `MailOn` special case. -/
def mergeDAG (dst src : DAG) : DAG :=
  { name := mergeStr dst.name src.name,
    description := mergeStr dst.description src.description,
    mailOn := mergeMailOn dst.mailOn src.mailOn,
    location := mergeStr dst.location src.location }

/-! ## Claim theorems -/

/-- Example status values used by concrete witnesses. -/
def exSt1 : Status := ⟨"hello", "req-0001-full", .running, "-", "-", "log1"⟩

/-- A second example status value. -/
def exSt2 : Status := ⟨"hello", "req-0001-full", .success, "-", "-", "log1"⟩

/-- C1: for every status file containing at least one line that decodes as
a valid Status, ParseStatusFile returns the Status encoded by the last such
decodable line (skipping undecodable lines, including arbitrary trailing
garbage); for a file with zero decodable lines it fails with the Empty
error (`io.EOF`). -/
theorem claim_C1_parse_returns_last_decodable {π : Type} [DecidableEq π]
    (fs : List (π × List Line)) (p : π) (lines : List Line)
    (h : alookup fs p = some lines) :
    parseFile fs p =
      match (lines.filterMap decodeLine).getLast? with
      | some s => .ok s
      | none => .error .eof := by
  rw [parseFile, h]
  show parseLines none lines = _
  rw [parseLines_eq]

/-- Witness for C1 at a concrete file: garbage before, between and after two
decodable lines; the parse returns the status of the last decodable line. -/
theorem claim_C1_witness :
    alookup [((0 : Nat),
      [Line.garbage "x", Line.valid exSt1, Line.garbage "",
       Line.valid exSt2, Line.garbage "not json"])] 0 =
      some [Line.garbage "x", Line.valid exSt1, Line.garbage "",
            Line.valid exSt2, Line.garbage "not json"] ∧
    parseFile [((0 : Nat),
      [Line.garbage "x", Line.valid exSt1, Line.garbage "",
       Line.valid exSt2, Line.garbage "not json"])] 0 = .ok exSt2 := by
  refine ⟨rfl, ?_⟩
  rw [claim_C1_parse_returns_last_decodable
    [((0 : Nat),
      [Line.garbage "x", Line.valid exSt1, Line.garbage "",
       Line.valid exSt2, Line.garbage "not json"])] 0
    [Line.garbage "x", Line.valid exSt1, Line.garbage "",
     Line.valid exSt2, Line.garbage "not json"] rfl]
  rfl

/-- C9: for a file that exists but has zero decodable status lines
(ParseStatusFile returns end-of-file), Compact returns nil and makes no
filesystem change: no compacted sibling is created and the original file is
not removed. -/
theorem claim_C9_compact_empty_noop (tree : List (StatusPath × List Line))
    (p : StatusPath) (lines : List Line)
    (h : alookup tree p = some lines)
    (hnone : lines.filterMap decodeLine = []) :
    Compact tree p = .ok tree := by
  have hp : parseFile tree p = Except.error JErr.eof := by
    rw [parseFile, h]
    show parseLines none lines = _
    rw [parseLines_eq, hnone]
    rfl
  rw [Compact, hp]

/-- Example status-file path used by concrete witnesses. -/
def exPath : StatusPath :=
  ⟨"2024", "01", "02", ⟨"hello", ⟨"2024", "01", "02", "03:04:05.000"⟩, "req-0001"⟩, false⟩

/-- Witness for C9: a file holding only garbage lines is left in place. -/
theorem claim_C9_witness :
    alookup [(exPath, [Line.garbage "x", Line.garbage ""])] exPath =
      some [Line.garbage "x", Line.garbage ""] ∧
    ([Line.garbage "x", Line.garbage ""].filterMap decodeLine = []) ∧
    Compact [(exPath, [Line.garbage "x", Line.garbage ""])] exPath =
      .ok [(exPath, [Line.garbage "x", Line.garbage ""])] :=
  ⟨by rfl, by rfl, claim_C9_compact_empty_noop _ exPath _ (by rfl) (by rfl)⟩

/-- C3: calling JSONDB.Write when no writer is open returns the NotOpen
error; no state is produced, so no file is modified.  The writer method is
not under src; its behaviour on a nil writer is modelled from the spec
(*NotOpen* when none). -/
theorem claim_C3_write_without_writer (db : DB) (st : Status)
    (h : db.writer = none) :
    DB.Write db st = .error .notOpen := by
  rw [DB.Write, h]
  rfl

/-- Witness for C3 on a concrete store with no open writer. -/
theorem claim_C3_witness :
    (DB.mk [] [] none false).writer = none ∧
    DB.Write (DB.mk [] [] none false) exSt1 = .error .notOpen :=
  ⟨rfl, claim_C3_write_without_writer _ exSt1 rfl⟩

/-- C5: during the merge of the base template (destination) with the
just-built DAG (source), the MailOn field is assigned wholesale: the merged
MailOn is exactly the MailOn of the source, with no field-by-field
combination of the zero fields of the source with base values. -/
theorem claim_C5_mailon_wholesale (dst src : DAG) :
    (mergeDAG dst src).mailOn = src.mailOn := by
  show mergeMailOn dst.mailOn src.mailOn = src.mailOn
  rcases hd : dst.mailOn with ⟨df, ds⟩
  rcases hs : src.mailOn with ⟨sf, ss⟩
  cases df <;> cases ds <;> cases sf <;> cases ss <;> rfl

/-- C10: Scheduler.Stop is idempotent at the public interface: when the
scheduler is not running it is a no-op that sends nothing on the stop
channel, and a second consecutive Stop after a first Stop changes nothing
and sends nothing. -/
theorem claim_C10_stop_idempotent (s : SchedState) :
    (s.running = false → SchedStop s = (s, 0)) ∧
    SchedStop (SchedStop s).1 = ((SchedStop s).1, 0) := by
  constructor
  · intro h
    simp [SchedStop, h]
  · rcases s with ⟨r, c⟩
    cases r <;> cases c <;> rfl

/-- Witness for C10: a never-started scheduler is untouched by Stop, and a
running scheduler is untouched by the second of two consecutive Stops. -/
theorem claim_C10_witness :
    SchedStop ⟨false, true⟩ = (⟨false, true⟩, 0) ∧
    SchedStop (SchedStop ⟨true, true⟩).1 = ((SchedStop ⟨true, true⟩).1, 0) :=
  ⟨(claim_C10_stop_idempotent ⟨false, true⟩).1 rfl,
   (claim_C10_stop_idempotent ⟨true, true⟩).2⟩

/-- Example day used by concrete witnesses. -/
def exDay : Timestamp := ⟨"2024", "01", "02", "00:00:00.000"⟩

/-- C7 counterexample: with the strict-today flag NOT set and an index
directory yielding no matching entries, ReadStatusToday fails with
NoStatusDataToday — not with NoStatusData as the claim states.  (The
NoStatusData branch of `latestToday` is unreachable: `getLatestFiles` is
only consulted after the match list was checked to be nonempty, and then it
never returns an empty list.) -/
theorem claim_C7_counterexample :
    (DB.mk [] [] none false).latestStatusToday = false ∧
    DB.ReadStatusToday (DB.mk [] [] none false) "x" exDay =
      .error .noStatusDataToday ∧
    JErr.noStatusDataToday ≠ JErr.noStatusData := by
  refine ⟨rfl, rfl, ?_⟩
  intro h
  cases h

/-- C7 amended: for every dagID whose index directory yields no matching
index entries, ReadStatusToday fails with NoStatusDataToday regardless of
whether the strict-today flag is set. -/
theorem claim_C7_amended_no_matches (db : DB) (dagID : String)
    (day : Timestamp)
    (h : latestTodayMatches db dagID day db.latestStatusToday = []) :
    DB.ReadStatusToday db dagID day = .error .noStatusDataToday := by
  have hl : latestToday db dagID day db.latestStatusToday =
      .error .noStatusDataToday := by
    rw [latestToday, h]
    rfl
  rw [DB.ReadStatusToday, hl]

/-- Witness for C7 amended, with the strict-today flag set. -/
theorem claim_C7_witness :
    latestTodayMatches (DB.mk [] [] none true) "x" exDay
      (DB.mk [] [] none true).latestStatusToday = [] ∧
    DB.ReadStatusToday (DB.mk [] [] none true) "x" exDay =
      .error .noStatusDataToday :=
  ⟨rfl, claim_C7_amended_no_matches (DB.mk [] [] none true) "x" exDay rfl⟩

/-- C4 counterexample: when the mode is not HeadOnly and a base-config path
is configured but the base file does not exist, the destination template is
a nil DAG (`loadBaseConfig` returns `nil, nil`), not the empty DAG named
after the target file stem that the claim predicts. -/
theorem claim_C4_counterexample :
    ldBaseIfRequired "base.yaml" (fun _ => none) "dags/hello.yaml"
      ⟨"", false, false, false⟩ = .ok none ∧
    fileStem "dags/hello.yaml" = "hello" ∧
    (Except.ok none : Except LoadErr (Option DAG)) ≠
      .ok (some { emptyDAG with name := "hello" }) := by
  refine ⟨rfl, rfl, ?_⟩
  intro h
  exact Option.noConfusion (Except.ok.inj h)

/-- C4 amended: in HeadOnly mode, or when no base-config path is
configured, loading starts from an empty DAG named after the target file
stem; when a base path is configured and the mode is not HeadOnly, the
template is the built base DAG if the base file exists and a nil template
(no DAG at all) if it does not. -/
theorem claim_C4_amended_base_template (baseConfig file : String)
    (fs : String → Option BaseContent) (opts : BuildDAGOptions) :
    (opts.headOnly = true ∨ baseConfig = "" →
      ldBaseIfRequired baseConfig fs file opts =
        .ok (some { emptyDAG with name := fileStem file })) ∧
    (opts.headOnly = false → baseConfig ≠ "" → fs baseConfig = none →
      ldBaseIfRequired baseConfig fs file opts = .ok none) ∧
    (∀ d, opts.headOnly = false → baseConfig ≠ "" →
      fs baseConfig = some (.buildsTo d) →
      ldBaseIfRequired baseConfig fs file opts = .ok (some d)) := by
  refine ⟨?_, ?_, ?_⟩
  · rintro (h | h) <;> simp [ldBaseIfRequired, h]
  · intro h1 h2 h3
    simp [ldBaseIfRequired, loadBaseConfig, h1, h2, h3]
  · intro d h1 h2 h3
    simp [ldBaseIfRequired, loadBaseConfig, h1, h2, h3]

/-- Witness for C4 amended: the no-base case names the template after the
file stem, and the existing-base case returns the built base DAG. -/
theorem claim_C4_witness :
    ldBaseIfRequired "" (fun _ => none) "dags/hello.yaml"
      ⟨"", false, true, true⟩ =
      .ok (some { emptyDAG with name := fileStem "dags/hello.yaml" }) ∧
    ldBaseIfRequired "base.yaml"
      (fun _ => some (.buildsTo ⟨"base", "", ⟨true, false⟩, ""⟩))
      "dags/hello.yaml" ⟨"", false, false, false⟩ =
      .ok (some ⟨"base", "", ⟨true, false⟩, ""⟩) :=
  ⟨(claim_C4_amended_base_template "" "dags/hello.yaml" (fun _ => none)
      ⟨"", false, true, true⟩).1 (Or.inr rfl),
   (claim_C4_amended_base_template "base.yaml" "dags/hello.yaml"
      (fun _ => some (.buildsTo ⟨"base", "", ⟨true, false⟩, ""⟩))
      ⟨"", false, false, false⟩).2.2 ⟨"base", "", ⟨true, false⟩, ""⟩ rfl
      (by simp) rfl⟩

/-! ## The Open, Write, Close chain (C2) -/

theorem open_ok (db : DB) (dagID reqID : String) (t : Timestamp)
    (h : db.writer = none) :
    DB.Open db dagID t reqID =
      .ok { db with
            index := aupdate db.index (normalizedID dagID)
              (fun o =>
                let es := o.getD []
                if craftFileName dagID reqID t ∈ es then es
                else es ++ [craftFileName dagID reqID t]),
            status := aupdate db.status (craftStatusPath dagID reqID t)
              (fun o => o.getD []),
            writer := some (craftStatusPath dagID reqID t) } := by
  rw [DB.Open, h]
  rfl

theorem write_ok (db : DB) (sp : StatusPath) (st : Status)
    (h : db.writer = some sp) :
    DB.Write db st =
      .ok { db with
            status := aupdate db.status sp (fun o => o.getD [] ++ [Line.valid st]) } := by
  rw [DB.Write, h]
  rfl

/-- Draining a write sequence through an open writer appends the serialized
lines, in order, to the open status file and touches nothing else. -/
theorem writeAll_ok (sp : StatusPath) (ws : List Status) :
    ∀ (db : DB) (init : List Line),
    db.writer = some sp → alookup db.status sp = some init →
    writeAll db ws =
      .ok { db with
            status := aupdate db.status sp (fun _ => init ++ ws.map Line.valid) } := by
  induction ws with
  | nil =>
    intro db init hw hl
    have h1 : aupdate db.status sp (fun _ => init ++ List.map Line.valid []) =
        db.status := by
      simpa using aupdate_same db.status sp init hl
    rw [writeAll, h1]
  | cons w rest ih =>
    intro db init hw hl
    rw [writeAll, write_ok db sp w hw]
    show writeAll
      { db with status := aupdate db.status sp (fun o => o.getD [] ++ [Line.valid w]) }
      rest = _
    rw [ih
      { db with status := aupdate db.status sp (fun o => o.getD [] ++ [Line.valid w]) }
      (init ++ [Line.valid w]) hw (by simp [alookup_aupdate_self, hl])]
    simp [aupdate_aupdate, List.append_assoc]

theorem craftStatusPath_ne_compacted (dagID reqID : String) (t : Timestamp) :
    craftStatusPath dagID reqID t ≠ craftCompactedPath dagID reqID t := by
  intro h
  have := congrArg StatusPath.compacted h
  simp [craftStatusPath, craftCompactedPath] at this

/-- Serialized lines all decode back. -/
theorem filterMap_decode_valid (ws : List Status) :
    (ws.map Line.valid).filterMap decodeLine = ws := by
  induction ws with
  | nil => rfl
  | cons w rest ih => simp [decodeLine, ih]

/-- C2: for every sequence Open; Write w1; ...; Write wn; Close with n >= 1
(starting with no open writer and no pre-existing compacted sibling), once
Close returns the status file has been replaced by the sibling ending in
the compacted suffix, which contains exactly one line: the serialization of
wn.  The line-level writer (`writer.go`) is not under src; its append-only
one-line-per-write behaviour is modelled from the spec. -/
theorem claim_C2_close_compacts_to_last (db0 : DB) (dagID reqID : String)
    (t : Timestamp) (ws : List Status) (wn : Status)
    (hw : db0.writer = none)
    (hlast : ws.getLast? = some wn)
    (hcp : alookup db0.status (craftCompactedPath dagID reqID t) = none) :
    ∃ db1 db2 db3,
      DB.Open db0 dagID t reqID = .ok db1 ∧
      writeAll db1 ws = .ok db2 ∧
      DB.Close db2 = .ok db3 ∧
      alookup db3.status (craftCompactedPath dagID reqID t) =
        some [Line.valid wn] ∧
      alookup db3.status (craftStatusPath dagID reqID t) = none := by
  set sp := craftStatusPath dagID reqID t with hsp
  set cp := craftCompactedPath dagID reqID t with hcpdef
  have hne : sp ≠ cp := craftStatusPath_ne_compacted dagID reqID t
  -- the state after Open
  obtain ⟨db1, hopen, hw1, hst1, hcp1⟩ :
      ∃ db1, DB.Open db0 dagID t reqID = .ok db1 ∧
        db1.writer = some sp ∧
        alookup db1.status sp = some ((alookup db0.status sp).getD []) ∧
        alookup db1.status cp = none := by
    refine ⟨_, open_ok db0 dagID reqID t hw, rfl, ?_, ?_⟩
    · rw [alookup_aupdate_self]
    · rw [alookup_aupdate_other _ _ _ _ (Ne.symm hne), hcp]
  -- the state after the writes
  obtain ⟨db2, hwrites, hw2, hst2, hcp2⟩ :
      ∃ db2, writeAll db1 ws = .ok db2 ∧
        db2.writer = some sp ∧
        alookup db2.status sp =
          some ((alookup db0.status sp).getD [] ++ ws.map Line.valid) ∧
        alookup db2.status cp = none := by
    refine ⟨_, writeAll_ok sp ws db1 _ hw1 hst1, hw1, ?_, ?_⟩
    · rw [alookup_aupdate_self]
    · rw [alookup_aupdate_other _ _ _ _ (Ne.symm hne), hcp1]
  -- the compaction performed by Close
  have hparse : parseFile db2.status sp = .ok wn := by
    rw [parseFile, hst2]
    show parseLines none _ = _
    rw [parseLines_eq]
    have hws : ws ≠ [] := by
      intro h
      rw [h] at hlast
      simp at hlast
    simp only [List.filterMap_append, filterMap_decode_valid, List.getLast?_append]
    rw [hlast]
    rfl
  have hspc : sp.compacted = false := rfl
  have hcompact : Compact db2.status sp =
      .ok (aremove
        (aupdate (aupdate db2.status cp (fun o => o.getD [])) cp
          (fun o => o.getD [] ++ [Line.valid wn])) sp) := by
    rw [Compact, hparse]
    simp only [hspc]
    rfl
  have hclose : DB.Close db2 =
      .ok { db2 with
            status := aremove
              (aupdate (aupdate db2.status cp (fun o => o.getD [])) cp
                (fun o => o.getD [] ++ [Line.valid wn])) sp,
            writer := none } := by
    simp only [DB.Close, hw2, hcompact]
  refine ⟨db1, db2, _, hopen, hwrites, hclose, ?_, ?_⟩
  · show alookup (aremove _ sp) cp = _
    rw [alookup_aremove_other _ _ _ (Ne.symm hne),
      alookup_aupdate_self, alookup_aupdate_self, hcp2]
    rfl
  · show alookup (aremove _ sp) sp = _
    rw [alookup_aremove_self]

/-- Witness for C2 at a concrete two-write execution. -/
theorem claim_C2_witness :
    (DB.mk [] [] none false).writer = none ∧
    [exSt1, exSt2].getLast? = some exSt2 ∧
    alookup (DB.mk [] [] none false).status
      (craftCompactedPath "hello" "req-0001-full" exDay) = none ∧
    (∃ db1 db2 db3,
      DB.Open (DB.mk [] [] none false) "hello" exDay "req-0001-full" = .ok db1 ∧
      writeAll db1 [exSt1, exSt2] = .ok db2 ∧
      DB.Close db2 = .ok db3 ∧
      alookup db3.status (craftCompactedPath "hello" "req-0001-full" exDay) =
        some [Line.valid exSt2] ∧
      alookup db3.status (craftStatusPath "hello" "req-0001-full" exDay) = none) :=
  ⟨rfl, rfl, rfl,
   claim_C2_close_compacts_to_last (DB.mk [] [] none false) "hello"
     "req-0001-full" exDay [exSt1, exSt2] exSt2 rfl rfl rfl⟩

/-! ## Scheduler dispatch lemmas (C6) -/

theorem mem_insertByNext (x z : Entry) (l : List Entry) :
    z ∈ insertByNext x l ↔ z = x ∨ z ∈ l := by
  induction l with
  | nil => simp [insertByNext]
  | cons y ys ih =>
    by_cases hc : x.next ≤ y.next
    · simp [insertByNext, hc]
    · simp [insertByNext, hc, ih]
      tauto

theorem insertByNext_sorted (x : Entry) (l : List Entry)
    (h : List.Pairwise (fun a b => a.next ≤ b.next) l) :
    List.Pairwise (fun a b => a.next ≤ b.next) (insertByNext x l) := by
  induction l with
  | nil => simp [insertByNext]
  | cons y ys ih =>
    obtain ⟨hy, hys⟩ := List.pairwise_cons.mp h
    by_cases hc : x.next ≤ y.next
    · simp only [insertByNext, if_pos hc]
      refine List.Pairwise.cons ?_ (List.Pairwise.cons hy hys)
      intro z hz
      rcases List.mem_cons.mp hz with hz1 | hz1
      · exact hz1 ▸ hc
      · exact le_trans hc (hy z hz1)
    · push_neg at hc
      simp only [insertByNext, if_neg (not_le.mpr hc)]
      refine List.Pairwise.cons ?_ (ih hys)
      intro z hz
      rcases (mem_insertByNext x z ys).mp hz with hz | hz
      · exact hz ▸ le_of_lt hc
      · exact hy z hz

theorem sortByNext_sorted (l : List Entry) :
    List.Pairwise (fun a b => a.next ≤ b.next) (sortByNext l) := by
  induction l with
  | nil => simp [sortByNext]
  | cons x xs ih => exact insertByNext_sorted x (sortByNext xs) ih

/-- Stability at each key: inserting an earlier-read entry places it before
every equal-key entry, so the per-key subsequence gains it at the front. -/
theorem filter_insertByNext (x : Entry) (l : List Entry) (k : Int) :
    (insertByNext x l).filter (fun e => e.next == k) =
      if x.next == k then x :: l.filter (fun e => e.next == k)
      else l.filter (fun e => e.next == k) := by
  induction l with
  | nil =>
    by_cases hx : x.next = k <;> simp [insertByNext, List.filter_cons, hx]
  | cons y ys ih =>
    by_cases hc : x.next ≤ y.next
    · simp only [insertByNext, if_pos hc]
      by_cases hx : x.next = k <;> simp [List.filter_cons, hx]
    · push_neg at hc
      simp only [insertByNext, if_neg (not_le.mpr hc)]
      by_cases hx : x.next = k
      · have hy : ¬ y.next = k := by
          intro h
          rw [hx] at hc
          rw [h] at hc
          exact lt_irrefl k hc
        simp [List.filter_cons, hx, hy, ih]
      · by_cases hy : y.next = k <;> simp [List.filter_cons, hx, hy, ih]

theorem filter_sortByNext (l : List Entry) (k : Int) :
    (sortByNext l).filter (fun e => e.next == k) =
      l.filter (fun e => e.next == k) := by
  induction l with
  | nil => rfl
  | cons x xs ih =>
    show (insertByNext x (sortByNext xs)).filter _ = _
    rw [filter_insertByNext]
    by_cases hx : x.next = k <;> simp [List.filter_cons, hx, ih]

theorem mem_dispatchLoop (now : Int) (z : Entry) :
    ∀ l : List Entry, z ∈ dispatchLoop now l → z ∈ l ∧ z.next ≤ now := by
  intro l
  induction l with
  | nil => simp [dispatchLoop]
  | cons e rest ih =>
    by_cases hb : now < e.next
    · simp [dispatchLoop, hb]
    · simp only [dispatchLoop, if_neg hb, List.mem_cons]
      rintro (hz | hz)
      · exact ⟨Or.inl hz, hz ▸ not_lt.mp hb⟩
      · rcases ih hz with ⟨h1, h2⟩
        exact ⟨Or.inr h1, h2⟩

theorem dispatchLoop_sorted (now : Int) :
    ∀ l : List Entry, List.Pairwise (fun a b => a.next ≤ b.next) l →
      List.Pairwise (fun a b => a.next ≤ b.next) (dispatchLoop now l) := by
  intro l
  induction l with
  | nil => simp [dispatchLoop]
  | cons e rest ih =>
    intro hp
    obtain ⟨he, hrest⟩ := List.pairwise_cons.mp hp
    by_cases hb : now < e.next
    · simp [dispatchLoop, hb]
    · simp only [dispatchLoop, if_neg hb]
      refine List.Pairwise.cons ?_ (ih hrest)
      intro z hz
      exact he z (mem_dispatchLoop now z rest hz).1

theorem filter_dispatchLoop (now k : Int) :
    ∀ l : List Entry, List.Pairwise (fun a b => a.next ≤ b.next) l →
      (dispatchLoop now l).filter (fun e => e.next == k) =
        if k ≤ now then l.filter (fun e => e.next == k) else [] := by
  intro l
  induction l with
  | nil => intro hp; simp [dispatchLoop]
  | cons e rest ih =>
    intro hp
    obtain ⟨he, hrest⟩ := List.pairwise_cons.mp hp
    by_cases hb : now < e.next
    · simp only [dispatchLoop, if_pos hb, List.filter_nil]
      by_cases hk : k ≤ now
      · rw [if_pos hk]
        symm
        rw [List.filter_eq_nil_iff]
        intro z hz
        have hzk : ¬ z.next = k := by
          intro hc
          rcases List.mem_cons.mp hz with h | h
          · rw [h] at hc
            rw [hc] at hb
            exact absurd hb (not_lt.mpr hk)
          · have h2 := he z h
            rw [hc] at h2
            exact absurd (lt_of_lt_of_le hb h2) (not_lt.mpr hk)
        simpa using hzk
      · rw [if_neg hk]
    · simp only [dispatchLoop, if_neg hb]
      by_cases hk : k ≤ now
      · by_cases hx : e.next = k <;>
          simp [List.filter_cons, hx, ih hrest, hk]
      · have hx : ¬ e.next = k := by
          intro hc
          rw [hc] at hb
          exact hk (not_lt.mp hb)
        simp [List.filter_cons, hx, ih hrest, hk]

/-- C6: for every entry list returned by the entry reader, run(now)
dispatches Invoke exactly once for each entry whose Next is not after now
(per-key multiplicities and original tie order are preserved), in ascending
order of Next, and dispatches no entry whose Next is after now. -/
theorem claim_C6_run_dispatch (now : Int) (entries : List Entry) :
    (∀ e ∈ schedulerRun now entries, e.next ≤ now) ∧
    List.Pairwise (fun a b => a.next ≤ b.next) (schedulerRun now entries) ∧
    (∀ k : Int, (schedulerRun now entries).filter (fun e => e.next == k) =
      if k ≤ now then entries.filter (fun e => e.next == k) else []) := by
  refine ⟨?_, ?_, ?_⟩
  · intro e he
    exact (mem_dispatchLoop now e (sortByNext entries) he).2
  · exact dispatchLoop_sorted now (sortByNext entries) (sortByNext_sorted entries)
  · intro k
    show (dispatchLoop now (sortByNext entries)).filter (fun e => e.next == k) = _
    rw [filter_dispatchLoop now k (sortByNext entries) (sortByNext_sorted entries)]
    by_cases hk : k ≤ now
    · rw [if_pos hk, if_pos hk, filter_sortByNext]
    · rw [if_neg hk, if_neg hk]

/-- Witness for C6 on the tick scenario of the spec: entries due two seconds
early, on time, and thirty seconds late; the first two are dispatched in
that order and the third is not. -/
theorem claim_C6_witness :
    schedulerRun 0 [⟨30, "late"⟩, ⟨-2, "early"⟩, ⟨0, "onTime"⟩] =
      [⟨-2, "early"⟩, ⟨0, "onTime"⟩] ∧
    (schedulerRun 0 [⟨30, "late"⟩, ⟨-2, "early"⟩, ⟨0, "onTime"⟩]).filter
        (fun e => e.next == 0) =
      if (0 : Int) ≤ 0 then
        [(⟨30, "late"⟩ : Entry), ⟨-2, "early"⟩, ⟨0, "onTime"⟩].filter
          (fun e => e.next == 0)
      else [] :=
  ⟨by rfl,
   (claim_C6_run_dispatch 0 [⟨30, "late"⟩, ⟨-2, "early"⟩, ⟨0, "onTime"⟩]).2.2 0⟩

/-! ## Rename frame property (C8) -/

/-- Soundness of the inner scan: a hit was parsed from its status file and
carries exactly the requested ID. -/
theorem scanStatus_sound (tree : List (StatusPath × List Line))
    (reqID : String) :
    ∀ (cands : List StatusPath) (p : StatusPath) (st : Status),
      scanStatus tree reqID cands = some (p, st) →
      parseFile tree p = .ok st ∧ st.requestID = reqID := by
  intro cands
  induction cands with
  | nil =>
    intro p st h
    simp [scanStatus] at h
  | cons q qs ih =>
    intro p st h
    cases hq : parseFile tree q with
    | ok s1 =>
      simp only [scanStatus, hq] at h
      by_cases hr : s1.requestID = reqID
      · rw [if_pos hr] at h
        have h1 : q = p := congrArg Prod.fst (Option.some.inj h)
        have h2 : s1 = st := congrArg Prod.snd (Option.some.inj h)
        subst h1
        subst h2
        exact ⟨hq, hr⟩
      · rw [if_neg hr] at h
        exact ih p st h
    | error e =>
      simp only [scanStatus, hq] at h
      exact ih p st h

/-- Soundness of the outer walk of `FindByRequestID`. -/
theorem findScan_sound (tree : List (StatusPath × List Line))
    (reqID : String) :
    ∀ (fns : List FileName) (p : StatusPath) (st : Status),
      findScan tree reqID fns = .ok (p, st) →
      parseFile tree p = .ok st ∧ st.requestID = reqID := by
  intro fns
  induction fns with
  | nil =>
    intro p st h
    simp [findScan] at h
  | cons fn rest ih =>
    intro p st h
    cases hs : scanStatus tree reqID (globStatus tree fn) with
    | some hit =>
      simp only [findScan, hs] at h
      have hh : hit = (p, st) := Except.ok.inj h
      exact scanStatus_sound tree reqID (globStatus tree fn) p st (hh ▸ hs)
    | none =>
      simp only [findScan, hs] at h
      exact ih p st h

/-- A successful parse returns a status decoded from a stored line of the
parsed file. -/
theorem parseFile_ok_mem {π : Type} [DecidableEq π]
    (tree : List (π × List Line)) (p : π) (st : Status)
    (h : parseFile tree p = .ok st) :
    ∃ lines, alookup tree p = some lines ∧ st ∈ lines.filterMap decodeLine := by
  cases hl : alookup tree p with
  | none => simp [parseFile, hl] at h
  | some lines =>
    refine ⟨lines, rfl, ?_⟩
    have h2 : parseLines none lines = .ok st := by
      rw [parseFile, hl] at h
      exact h
    rw [parseLines_eq] at h2
    cases hg : (lines.filterMap decodeLine).getLast? with
    | none => simp [hg] at h2
    | some s =>
      rw [hg] at h2
      exact Except.ok.inj h2 ▸ List.mem_of_getLast?_eq_some hg

/-- C8: for distinct DAG IDs a, b, after a successful directory-moving
Rename(a, b) only the index directory has been renamed — the status tree
and the other index directories are unchanged — and FindByRequestID(b, r)
returns exactly what FindByRequestID(a, r) returned before the rename; in
particular it succeeds iff the pre-rename lookup succeeded, and any status
it returns is a stored (pre-rename) line, so its Name field still carries
the old DAG ID. -/
theorem claim_C8_rename_frame (db : DB) (a b r : String) (l : List FileName)
    (hab : a ≠ b)
    (hold : alookup db.index (normalizedID a) = some l)
    (hnew : alookup db.index (normalizedID b) = none) :
    ∃ db2,
      DB.Rename db a b = .ok db2 ∧
      db2.status = db.status ∧
      alookup db2.index (normalizedID b) = some l ∧
      alookup db2.index (normalizedID a) = none ∧
      (∀ k, k ≠ normalizedID a → k ≠ normalizedID b →
        alookup db2.index k = alookup db.index k) ∧
      DB.FindByRequestID db2 b r = DB.FindByRequestID db a r ∧
      (∀ p st, DB.FindByRequestID db2 b r = .ok (p, st) →
        ∃ lines, alookup db.status p = some lines ∧
          st ∈ lines.filterMap decodeLine ∧ st.requestID = r) := by
  have hnn : normalizedID a ≠ normalizedID b := by
    intro h
    rw [h, hnew] at hold
    cases hold
  refine ⟨{ db with
            index := aupdate (aremove db.index (normalizedID a))
              (normalizedID b) (fun _ => l) }, ?_, rfl, ?_, ?_, ?_, ?_, ?_⟩
  · simp only [DB.Rename, if_neg hab, hold, hnew]
  · show alookup (aupdate _ _ _) _ = _
    rw [alookup_aupdate_self]
  · show alookup (aupdate _ _ _) _ = _
    rw [alookup_aupdate_other _ _ _ _ hnn, alookup_aremove_self]
  · intro k hka hkb
    show alookup (aupdate _ _ _) _ = _
    rw [alookup_aupdate_other _ _ _ _ hkb, alookup_aremove_other _ _ _ hka]
  · by_cases hr : r = ""
    · simp [DB.FindByRequestID, hr]
    · simp only [DB.FindByRequestID, if_neg hr]
      show findScan _ _ (sortDescBy _ (List.filter _
        ((alookup (aupdate (aremove db.index (normalizedID a))
          (normalizedID b) (fun _ => l)) (normalizedID b)).getD []))) = _
      rw [alookup_aupdate_self, hold]
  · intro p st h
    by_cases hr : r = ""
    · simp only [DB.FindByRequestID, if_pos hr] at h
      cases h
    · simp only [DB.FindByRequestID, if_neg hr] at h
      obtain ⟨hp, hreq⟩ := findScan_sound _ r _ p st h
      obtain ⟨lines, hl2, hmem⟩ := parseFile_ok_mem _ p st hp
      exact ⟨lines, hl2, hmem, hreq⟩

/-- Witness for C8 on a concrete store holding one execution of DAG a. -/
theorem claim_C8_witness :
    ("a" : String) ≠ "b" ∧
    alookup (DB.mk [(normalizedID "a", [craftFileName "a" "req-0001-full" exDay])]
        [] none false).index (normalizedID "a") =
      some [craftFileName "a" "req-0001-full" exDay] ∧
    alookup (DB.mk [(normalizedID "a", [craftFileName "a" "req-0001-full" exDay])]
        [] none false).index (normalizedID "b") = none ∧
    (∃ db2,
      DB.Rename (DB.mk [(normalizedID "a", [craftFileName "a" "req-0001-full" exDay])]
        [] none false) "a" "b" = .ok db2 ∧
      db2.status = (DB.mk [(normalizedID "a", [craftFileName "a" "req-0001-full" exDay])]
        [] none false).status ∧
      alookup db2.index (normalizedID "b") =
        some [craftFileName "a" "req-0001-full" exDay] ∧
      alookup db2.index (normalizedID "a") = none ∧
      (∀ k, k ≠ normalizedID "a" → k ≠ normalizedID "b" →
        alookup db2.index k =
          alookup (DB.mk [(normalizedID "a", [craftFileName "a" "req-0001-full" exDay])]
            [] none false).index k) ∧
      DB.FindByRequestID db2 "b" "req-0001-full" =
        DB.FindByRequestID (DB.mk [(normalizedID "a",
          [craftFileName "a" "req-0001-full" exDay])] [] none false) "a"
          "req-0001-full" ∧
      (∀ p st, DB.FindByRequestID db2 "b" "req-0001-full" = .ok (p, st) →
        ∃ lines,
          alookup (DB.mk [(normalizedID "a", [craftFileName "a" "req-0001-full" exDay])]
            [] none false).status p = some lines ∧
          st ∈ lines.filterMap decodeLine ∧ st.requestID = "req-0001-full")) :=
  ⟨by decide, rfl, rfl,
   claim_C8_rename_frame
     (DB.mk [(normalizedID "a", [craftFileName "a" "req-0001-full" exDay])]
       [] none false) "a" "b" "req-0001-full"
     [craftFileName "a" "req-0001-full" exDay] (by decide) rfl rfl⟩
